import Mathlib

/-!
# Verification of the `ream.js` datetime core

Shallow embedding of the `ream.js` library (files `src/lib/ream.ts` and the
Intl-backed variant) over the integers, together with a model of the
ECMAScript host's proleptic-Gregorian epoch/civil conversion (`Date.UTC`,
`getUTC*`, `new Date(y, m, d, ...)`), and proofs of the specification's
claims about the calendar engine, the zone-resolution layer and the
recurrence generators.

JS numbers are modelled as unbounded integers (`Int`); all arithmetic in the
library is exact integer arithmetic in the modelled range.  `a / b` and
`a % b` below are Lean's Euclidean division/remainder which, for a positive
literal divisor, coincide with floored division (`Math.floor(a/b)`) and the
always-nonnegative remainder; JS's truncated `%` is modelled by `Int.tmod`
where the source relies on it.
-/

namespace Ream

/- ------------------------------------------------------------------
   §0  Internal utils (ream.ts §0)
   ------------------------------------------------------------------ -/

/-- `isLeap` from the source: div-4-not-100-or-div-400.  (JS `%` is the
truncated remainder; comparing a remainder with 0 is a divisibility test, so
the Euclidean remainder gives the same Boolean on every integer.) -/
def isLeap (y : Int) : Bool := (y % 4 == 0 && y % 100 != 0) || y % 400 == 0

/-- `daysInMonth` table from the source. -/
def daysInMonth : List Int := [31, 28, 31, 30, 31, 30, 31, 31, 30, 31, 30, 31]

/-- Days in month `m` of year `y`: the source expression
`daysInMonth[m - 1] + (m === 2 && isLeap(y) ? 1 : 0)` (inlined in
`addMonths`; also the spec's `daysInMonth(month, year)`). -/
def dim (m y : Int) : Int :=
  daysInMonth.getD (m - 1).toNat 0 + (if m = 2 ∧ isLeap y = true then 1 else 0)

/- ------------------------------------------------------------------
   Host model: ECMAScript proleptic-Gregorian epoch/civil conversion
   ------------------------------------------------------------------ -/

/-- Day number (days since 1970-01-01) of the proleptic-Gregorian civil date
`(y, m, d)` with `m ∈ [1,12]`, linear continuation in `d`.  This models the
host's `Date.UTC` day computation (ECMA-262 `MakeDay` after month
normalization), written with the standard 400-year-era decomposition; all
divisors are positive so `/`, `%` are floored division and remainder. -/
def daysFromCivil (y m d : Int) : Int :=
  let y2 := if m ≤ 2 then y - 1 else y
  let era := y2 / 400
  let yoe := y2 - era * 400
  let mp := m + (if 2 < m then -3 else 9)
  let doy := (153 * mp + 2) / 5 + d - 1
  let doe := yoe * 365 + yoe / 4 - yoe / 100 + doy
  era * 146097 + doe - 719468

/-- Inverse of `daysFromCivil`: the proleptic-Gregorian civil date
`(y, m, d)` of a day number.  Models the host's `getUTCFullYear` /
`getUTCMonth` / `getUTCDate` decomposition (ECMA-262 `YearFromTime` etc.). -/
def civilFromDays (z : Int) : Int × Int × Int :=
  let z2 := z + 719468
  let era := z2 / 146097
  let doe := z2 - era * 146097
  let yoe := (doe - doe / 1460 + doe / 36524 - doe / 146096) / 365
  let y := yoe + era * 400
  let doy := doe - (365 * yoe + yoe / 4 - yoe / 100)
  let mp := (5 * doy + 2) / 153
  let d := doy - (153 * mp + 2) / 5 + 1
  let m := mp + (if mp < 10 then 3 else -9)
  (if m ≤ 2 then y + 1 else y, m, d)

/-- ECMA-262 `MakeDay` on a 0-based month index: normalize the month into
`[0,11]` carrying whole years, then take the day number. -/
def makeDay (y mIdx d : Int) : Int :=
  daysFromCivil (y + mIdx / 12) (mIdx % 12 + 1) d

/-- The two-digit-year rule of `Date.UTC` and the `new Date(y, m, d, ...)`
constructor: a year argument in `0..99` denotes `1900..1999`. -/
def yAdj (y : Int) : Int := if 0 ≤ y ∧ y ≤ 99 then y + 1900 else y

/- ------------------------------------------------------------------
   §1  Primitives (ream.ts §1)
   ------------------------------------------------------------------ -/

/-- `Instant`: integer epoch milliseconds. -/
structure Instant where
  epochMs : Int
deriving DecidableEq, Repr

/-- `Duration`: signed integer milliseconds. -/
structure Duration where
  ms : Int
deriving DecidableEq, Repr

/-- `PlainDate {y, m, d}`. -/
structure PlainDate where
  y : Int
  m : Int
  d : Int
deriving DecidableEq, Repr

/-- `PlainDateTime = PlainDate & PlainTime`. -/
structure PlainDateTime where
  y : Int
  m : Int
  d : Int
  h : Int
  min : Int
  s : Int
  ms : Int
deriving DecidableEq, Repr

/- ------------------------------------------------------------------
   §2  Time-zone record
   ------------------------------------------------------------------ -/

/-- `TimeZone` record; the Intl-backed variant adds the optional
abbreviation (absent = `none`, matching the plain variant's record type). -/
structure TimeZone where
  name : String
  offsetMinutes : Int
  dst : Bool
  abbreviation : Option String
deriving DecidableEq, Repr

/- ------------------------------------------------------------------
   §3  Zoned datetime functor
   ------------------------------------------------------------------ -/

/-- `ZDT<A> ≅ Instant × Zone × A`. -/
structure ZDT (A : Type) where
  instant : Instant
  zone : TimeZone
  payload : A
deriving DecidableEq, Repr

/-- `zdt` constructor. -/
def zdt {A : Type} (i : Instant) (z : TimeZone) (p : A) : ZDT A := ⟨i, z, p⟩

/-- Functor map: `({...z, payload: f(z.payload)})`. -/
def zfmap {A B : Type} (f : A → B) (z : ZDT A) : ZDT B :=
  ⟨z.instant, z.zone, f z.payload⟩

/- ------------------------------------------------------------------
   §6  Durations
   ------------------------------------------------------------------ -/

/-- `durations.days(n)`. -/
def durationDays (n : Int) : Duration := ⟨n * 86400000⟩

/-- `durations.weeks(n)`. -/
def durationWeeks (n : Int) : Duration := ⟨n * 604800000⟩

/- ------------------------------------------------------------------
   §7  Utility functions: epoch ↔ civil (via the host model)
   ------------------------------------------------------------------ -/

/-- `fromPlain`: `Date.UTC(y, m-1, d, h, min, s, ms)`, i.e. the two-digit
year rule, `MakeDay` on month index `m-1`, then `MakeDate`/`MakeTime`
(linear in the time fields). -/
def fromPlain (pdt : PlainDateTime) : Instant :=
  ⟨makeDay (yAdj pdt.y) (pdt.m - 1) pdt.d * 86400000 +
    pdt.h * 3600000 + pdt.min * 60000 + pdt.s * 1000 + pdt.ms⟩

/-- `toPlain`: the `getUTC*` field reads of ECMA-262 —
`Day(t) = floor(t / 86400000)` decomposed by `civilFromDays`, and
`HourFromTime(t) = floor(t / 3600000) mod 24` etc. with the floored
(always nonnegative) modulo. -/
def toPlain (i : Instant) : PlainDateTime :=
  let t := i.epochMs
  let c := civilFromDays (t / 86400000)
  ⟨c.1, c.2.1, c.2.2, (t / 3600000) % 24, (t / 60000) % 60, (t / 1000) % 60, t % 1000⟩

/-- `addDuration(dur)(i)`. -/
def addDuration (dur : Duration) (i : Instant) : Instant := ⟨i.epochMs + dur.ms⟩

/- ------------------------------------------------------------------
   §8  Calendar arithmetic (ream.ts §8)
   ------------------------------------------------------------------ -/

/-- The source's helper `mod = (n, m) => ((n % m) + m) % m`, with JS's
truncated `%` (`Int.tmod`). -/
def mod (n m : Int) : Int := (n.tmod m + m).tmod m

/-- `addYears(n)(d)`: year shift only, no day clamping. -/
def addYears (n : Int) (d : PlainDate) : PlainDate := ⟨d.y + n, d.m, d.d⟩

/-- `addMonths(n)(d)`: linearize months, floored decomposition
(`Math.floor(total / 12)` is floored division), clamp the day. -/
def addMonths (n : Int) (d : PlainDate) : PlainDate :=
  let total := d.m - 1 + n
  let y := d.y + total / 12
  let m := mod total 12 + 1
  ⟨y, m, min d.d (dim m y)⟩

/-- `addDays(n)(d)`: route through the epoch bijection.  (The source
returns the full `toPlain` record typed as `PlainDate`; the model keeps its
date part.) -/
def addDays (n : Int) (d : PlainDate) : PlainDate :=
  let p := toPlain ⟨(fromPlain ⟨d.y, d.m, d.d, 0, 0, 0, 0⟩).epochMs + n * 86400000⟩
  ⟨p.y, p.m, p.d⟩

/-- `addHours(n)(dt)`. -/
def addHours (n : Int) (dt : PlainDateTime) : PlainDateTime :=
  toPlain ⟨(fromPlain dt).epochMs + n * 3600000⟩

/-- `addMinutes(n)(dt)`. -/
def addMinutes (n : Int) (dt : PlainDateTime) : PlainDateTime :=
  toPlain ⟨(fromPlain dt).epochMs + n * 60000⟩

/-- `addSeconds(n)(dt)`. -/
def addSeconds (n : Int) (dt : PlainDateTime) : PlainDateTime :=
  toPlain ⟨(fromPlain dt).epochMs + n * 1000⟩

/-- `addMilliseconds(n)(dt)`. -/
def addMilliseconds (n : Int) (dt : PlainDateTime) : PlainDateTime :=
  toPlain ⟨(fromPlain dt).epochMs + n⟩

/- ------------------------------------------------------------------
   §9  Day of week (ream.ts §9)
   ------------------------------------------------------------------ -/

/-- `dayOfWeek(d)`: `new Date(y, m-1, d).getDay()` builds the local civil
midnight of `(y, m, d)` (after the two-digit-year rule and month
normalization) and reads its local weekday, which depends only on the civil
fields: day number 0 (1970-01-01) is a Thursday and `getDay` is 0-Sunday
based, so the host primitive is `(dayNumber + 4) mod 7` (floored modulo);
the source then remaps Sunday from 0 to 7. -/
def dayOfWeek (d : PlainDate) : Int :=
  let t := (makeDay (yAdj d.y) (d.m - 1) d.d + 4) % 7
  if t = 0 then 7 else t

/-- `startOfWeek(d, startOn)`: steps back `(dayOfWeek(d) - startOn + 7) % 7`
days (JS truncated `%`). -/
def startOfWeek (d : PlainDate) (startOn : Int) : PlainDate :=
  let dow := dayOfWeek d
  let diff := (dow - startOn + 7).tmod 7
  addDays (-diff) d

/- ------------------------------------------------------------------
   §2/§10  Intl-backed zone resolution (Intl variant of ream.ts)
   ------------------------------------------------------------------ -/

/-- The host environment, treated as an oracle (the spec's
`HostCivilClock`): zone-identifier validation (`new Intl.DateTimeFormat`),
the civil reading of an instant in a named zone (`toLocaleString('en-US',
{timeZone})`), the local-zone interpretation of civil fields (`new
Date(fields...)` / parsing of a formatted string), the local civil reading
(`getFullYear` etc.), and zone abbreviations (`formatToParts`). -/
structure HostClock where
  recognized : String → Bool
  civilTimeIn : String → Int → PlainDateTime
  localEpoch : PlainDateTime → Int
  localCivil : Int → PlainDateTime
  abbreviationFor : String → Int → Option String

/-- The `en-US` `toLocaleString` round-trip keeps seconds but drops
milliseconds. -/
def dropMs (p : PlainDateTime) : PlainDateTime := ⟨p.y, p.m, p.d, p.h, p.min, p.s, 0⟩

/-- `Math.round(a / 60000)` for an integer `a` (round half toward `+∞`). -/
def roundDivMinute (a : Int) : Int := (2 * a + 60000) / 120000

/-- The offset computation shared by `getTimezoneInfo` and its inner
`getOffsetForDate`: re-parse the UTC and the zone civil readings of the
instant in the local zone and negate the rounded minute difference. -/
def hostOffsetAt (h : HostClock) (tzName : String) (t : Int) : Int :=
  let utcTime := h.localEpoch (dropMs (h.civilTimeIn "UTC" t))
  let localTime := h.localEpoch (dropMs (h.civilTimeIn tzName t))
  let offsetMinutes := -(roundDivMinute (utcTime - localTime))
  offsetMinutes

/-- `new Date(y, mIdx, d, hh, mi, ss)`: local-zone epoch of the given civil
fields after the two-digit-year rule. -/
def jsNewDate (h : HostClock) (p : PlainDateTime) : Int :=
  h.localEpoch ⟨yAdj p.y, p.m, p.d, p.h, p.min, p.s, p.ms⟩

/-- `getTimezoneInfo(tzName, instant)` of the Intl-backed variant: validate
the name (unknown names fail soft to the UTC fallback record), resolve the
offset at the instant, classify DST against the minimum of the two
same-local-calendar-year reference offsets (January 1st noon and July 1st
noon, local time), and attach the abbreviation. -/
def getTimezoneInfo (h : HostClock) (tzName : String) (i : Instant) : TimeZone :=
  if h.recognized tzName then
    let offsetMinutes := hostOffsetAt h tzName i.epochMs
    let year := (h.localCivil i.epochMs).y
    let janOffset := hostOffsetAt h tzName (jsNewDate h ⟨year, 1, 1, 12, 0, 0, 0⟩)
    let julOffset := hostOffsetAt h tzName (jsNewDate h ⟨year, 7, 1, 12, 0, 0, 0⟩)
    let standardOffset := min janOffset julOffset
    ⟨tzName, offsetMinutes, decide (standardOffset < offsetMinutes),
      h.abbreviationFor tzName i.epochMs⟩
  else
    ⟨"UTC", 0, false, some "UTC"⟩

/-- `tzOffset(tz, i)` of the Intl-backed variant. -/
def tzOffset (h : HostClock) (tz : String) (i : Instant) : Int :=
  (getTimezoneInfo h tz i).offsetMinutes

/-- `zone(name, instant)` of the Intl-backed variant. -/
def zone (h : HostClock) (name : String) (i : Instant) : TimeZone :=
  getTimezoneInfo h name i

/-- `toZone(zoneName)(zdtObj)` of the Intl-backed variant: re-resolves the
zone at the value's instant, then *shifts the instant* by the offset delta. -/
def toZone (h : HostClock) (zoneName : String) (z : ZDT PlainDateTime) : ZDT PlainDateTime :=
  let newZone := zone h zoneName z.instant
  let adjustedMs := z.instant.epochMs + (newZone.offsetMinutes - z.zone.offsetMinutes) * 60000
  zdt ⟨adjustedMs⟩ newZone z.payload

/- ------------------------------------------------------------------
   §2/§10  Hardcoded-table zone resolution (src/lib/ream.ts), namespace Db
   ------------------------------------------------------------------ -/

namespace Db

/-- `TZ_DB` of `src/lib/ream.ts`: name, base offset, DST-rule string. -/
def TZ_DB : List (String × Int × String) :=
  [("UTC", 0, ""),
   ("Europe/London", 0, "lastSunMar+1h,lastSunOct-1h"),
   ("America/New_York", -300, "secondSunMar+1h,firstSunNov-1h")]

/-- `tzOffset(tz, i)` of `src/lib/ream.ts`: throws `"Unknown zone"` on a
name absent from the table (modelled as `Except.error`), else the base
offset. -/
def tzOffset (tz : String) (_i : Instant) : Except String Int :=
  match TZ_DB.find? (fun e => e.1 == tz) with
  | none => .error "Unknown zone"
  | some e => .ok e.2.1

/-- `zone(name)` of `src/lib/ream.ts`: throws on unknown names. -/
def zone (name : String) : Except String TimeZone :=
  match TZ_DB.find? (fun e => e.1 == name) with
  | none => .error ("Unknown zone: " ++ name)
  | some e => .ok ⟨name, e.2.1, false, none⟩

end Db

/- ------------------------------------------------------------------
   §12  Recurrence generators
   ------------------------------------------------------------------ -/

/-- Cursor of the `every(dur)` generator after `k` yields: starts at the
origin's epoch milliseconds, advances by `dur.ms` per element (both the
`while`-loop and the self-nesting generator variant step this way). -/
def everyCur (dur : Duration) (origin : ZDT PlainDateTime) : Nat → Int
  | 0 => origin.instant.epochMs
  | k + 1 => everyCur dur origin k + dur.ms

/-- The k-th element yielded by `every(dur)(origin)`:
`{...origin, instant: instant(cur)}`. -/
def everyElem (dur : Duration) (origin : ZDT PlainDateTime) (k : Nat) : ZDT PlainDateTime :=
  ⟨⟨everyCur dur origin k⟩, origin.zone, origin.payload⟩

/-- Payload of the k-th element yielded by `everyMonth(n)(origin)`: starts
at the origin payload; each step takes `addMonths(n)` of the date part and
reattaches the previous time fields. -/
def everyMonthPayload (n : Int) (origin : ZDT PlainDateTime) : Nat → PlainDateTime
  | 0 => origin.payload
  | k + 1 =>
    let p := everyMonthPayload n origin k
    let newDate := addMonths n ⟨p.y, p.m, p.d⟩
    ⟨newDate.y, newDate.m, newDate.d, p.h, p.min, p.s, p.ms⟩

/-- The k-th element yielded by `everyMonth(n)(origin)`:
`{...origin, payload: p}`. -/
def everyMonthElem (n : Int) (origin : ZDT PlainDateTime) (k : Nat) : ZDT PlainDateTime :=
  ⟨origin.instant, origin.zone, everyMonthPayload n origin k⟩

/-- One `everyMonth(n)` step on a payload (the loop body). -/
def monthStep (n : Int) (p : PlainDateTime) : PlainDateTime :=
  let newDate := addMonths n ⟨p.y, p.m, p.d⟩
  ⟨newDate.y, newDate.m, newDate.d, p.h, p.min, p.s, p.ms⟩

/- ------------------------------------------------------------------
   §14/§16  Main API: makeReam
   ------------------------------------------------------------------ -/

/-- The state captured by the closures `makeReam` returns: the instant and
the time zone. -/
structure ReamDate where
  instant : Instant
  timeZone : TimeZone
deriving DecidableEq, Repr

/-- `makeReam(instant, timeZone)`. -/
def makeReam (i : Instant) (tz : TimeZone) : ReamDate := ⟨i, tz⟩

/-- Getter `year: () => toPlain(instant).y`. -/
def ReamDate.year (r : ReamDate) : Int := (toPlain r.instant).y

/-- Getter `month: () => toPlain(instant).m`. -/
def ReamDate.month (r : ReamDate) : Int := (toPlain r.instant).m

/-- Getter `date: () => toPlain(instant).d`. -/
def ReamDate.date (r : ReamDate) : Int := (toPlain r.instant).d

/-- Getter `day: () => dayOfWeek(toPlain(instant))`. -/
def ReamDate.day (r : ReamDate) : Int :=
  dayOfWeek ⟨(toPlain r.instant).y, (toPlain r.instant).m, (toPlain r.instant).d⟩

/-- Getter `weekday: () => dayOfWeek(toPlain(instant))`. -/
def ReamDate.weekday (r : ReamDate) : Int :=
  dayOfWeek ⟨(toPlain r.instant).y, (toPlain r.instant).m, (toPlain r.instant).d⟩

/-- Getter `hour: () => toPlain(instant).h`. -/
def ReamDate.hour (r : ReamDate) : Int := (toPlain r.instant).h

/-- Getter `minute: () => toPlain(instant).min`. -/
def ReamDate.minute (r : ReamDate) : Int := (toPlain r.instant).min

/-- Getter `second: () => toPlain(instant).s`. -/
def ReamDate.second (r : ReamDate) : Int := (toPlain r.instant).s

/-- Getter `millisecond: () => toPlain(instant).ms`. -/
def ReamDate.millisecond (r : ReamDate) : Int := (toPlain r.instant).ms

/-- `valueOf: () => instant.epochMs`. -/
def ReamDate.valueOf (r : ReamDate) : Int := r.instant.epochMs

/-- `tz: (name) => makeReam(instant, zone(name, instant))` (Intl-backed
variant; the table variant differs only in how the zone record is found,
not in the instant or the getters). -/
def ReamDate.tz (r : ReamDate) (h : HostClock) (name : String) : ReamDate :=
  makeReam r.instant (zone h name r.instant)

/-- `utc: () => makeReam(instant, UTC)`. -/
def ReamDate.utc (r : ReamDate) : ReamDate :=
  makeReam r.instant ⟨"UTC", 0, false, none⟩

/- ------------------------------------------------------------------
   Constants and reference definitions
   ------------------------------------------------------------------ -/

/-- The source's `UTC` zone constant (`{name: 'UTC', offsetMinutes: 0,
dst: false}`). -/
def UTC : TimeZone := ⟨"UTC", 0, false, none⟩

/-- The spec's description of `addMonths` (§4.5), written from its words:
linearize to `year*12 + (month-1)`, add `n`, decompose by floored division,
clamp the day to `min(originalDay, daysInMonth(resultMonth, resultYear))`.
Reference definition for the refinement proof of C4. -/
def addMonthsSpec (n : Int) (d : PlainDate) : PlainDate :=
  let lin := d.y * 12 + (d.m - 1) + n
  let y := lin / 12
  let m := lin % 12 + 1
  ⟨y, m, min d.d (dim m y)⟩

/-- A deterministic fixed-offset test double for the host clock (the kind
of double the spec's design notes call for): it recognizes exactly
"America/New_York", shows a fixed offset of −300 minutes there, and runs
with a UTC local zone. -/
def testHost : HostClock where
  recognized := fun z => z == "America/New_York"
  civilTimeIn := fun z t =>
    if z == "America/New_York" then toPlain ⟨t - 300 * 60000⟩ else toPlain ⟨t⟩
  localEpoch := fun p => (fromPlain p).epochMs
  localCivil := fun t => toPlain ⟨t⟩
  abbreviationFor := fun _ _ => some "EST"

/- ------------------------------------------------------------------
   Validity (spec §3): the civil-range invariants
   ------------------------------------------------------------------ -/

/-- A valid civil date: month in `1..12`, day in `1..days-in-month`
honoring leap years. -/
def validDate (d : PlainDate) : Prop :=
  1 ≤ d.m ∧ d.m ≤ 12 ∧ 1 ≤ d.d ∧ d.d ≤ dim d.m d.y

instance : DecidablePred validDate := fun _ => by unfold validDate; infer_instance

/-- Valid civil time fields. -/
def validTime (p : PlainDateTime) : Prop :=
  0 ≤ p.h ∧ p.h ≤ 23 ∧ 0 ≤ p.min ∧ p.min ≤ 59 ∧
    0 ≤ p.s ∧ p.s ≤ 59 ∧ 0 ≤ p.ms ∧ p.ms ≤ 999

instance : DecidablePred validTime := fun _ => by unfold validTime; infer_instance

/-- A valid `CivilDateTime`. -/
def validDT (p : PlainDateTime) : Prop :=
  1 ≤ p.m ∧ p.m ≤ 12 ∧ 1 ≤ p.d ∧ p.d ≤ dim p.m p.y ∧ validTime p

instance : DecidablePred validDT := fun _ => by unfold validDT; infer_instance

/- ------------------------------------------------------------------
   Nat-level helpers for the bijection proof (year-of-era staircase)
   ------------------------------------------------------------------ -/

/-- Day-of-era on which year-of-era `t` starts (era = 400 civil years
beginning March 1st). -/
def yearStartN (t : Nat) : Nat := 365 * t + t / 4 - t / 100

/-- Whether year-of-era `t` contains a leap day (its February is civil year
`t + 1` modulo the era). -/
def leapYoe (t : Nat) : Bool :=
  ((t + 1) % 4 == 0 && (t + 1) % 100 != 0) || (t + 1) % 400 == 0

/-- Length in days of year-of-era `t`. -/
def yearLenN (t : Nat) : Nat := 365 + (if leapYoe t then 1 else 0)

/-- The year-of-era formula of `civilFromDays`, at the Nat level. -/
def yoeOfN (doe : Nat) : Nat :=
  (doe - doe / 1460 + doe / 36524 - doe / 146096) / 365

end Ream

/- ==================================================================
   Proof layer
   ================================================================== -/

namespace Ream

/- ---------- generic bridges ---------- -/

/-- The JS double-`%` idiom `((n % 12) + 12) % 12` (truncated remainder)
equals the Euclidean remainder. -/
theorem mod_twelve_eq (n : Int) : mod n 12 = n % 12 := by
  unfold mod
  rcases n with m | m
  · show ((m : Int).tmod 12 + 12).tmod 12 = (m : Int) % 12
    have hin : (m : Int).tmod 12 = (m : Int) % 12 :=
      Int.tmod_eq_emod (by positivity) (by norm_num)
    rw [hin]
    have hout : ((m : Int) % 12 + 12).tmod 12 = ((m : Int) % 12 + 12) % 12 :=
      Int.tmod_eq_emod (by omega) (by norm_num)
    rw [hout]
    omega
  · have h1 : (Int.negSucc m).tmod 12 = -(((m + 1) % 12 : Nat) : Int) := rfl
    have hout : (-(((m + 1) % 12 : Nat) : Int) + 12).tmod 12 =
        (-(((m + 1) % 12 : Nat) : Int) + 12) % 12 :=
      Int.tmod_eq_emod (by omega) (by norm_num)
    rw [h1, hout, Int.negSucc_eq]
    omega

/-- Characterization of `isLeap`. -/
theorem isLeap_iff (y : Int) :
    isLeap y = true ↔ (y % 4 = 0 ∧ y % 100 ≠ 0) ∨ y % 400 = 0 := by
  simp [isLeap]

/-- Characterization of `leapYoe`. -/
theorem leapYoe_iff (t : Nat) :
    leapYoe t = true ↔ ((t + 1) % 4 = 0 ∧ (t + 1) % 100 ≠ 0) ∨ (t + 1) % 400 = 0 := by
  simp [leapYoe]

/-- Within an era, `isLeap` of the civil year `400·era + (t+1)` matches the
year-of-era leap flag. -/
theorem isLeap_eq_leapYoe (era : Int) (t : Nat) :
    isLeap (400 * era + (t + 1 : Nat)) = leapYoe t := by
  rw [Bool.eq_iff_iff, isLeap_iff, leapYoe_iff]
  omega


/- ---------- Nat-level year staircase ---------- -/

set_option maxRecDepth 4000 in
/-- Decided table of the 400-year era: the year-of-era formula recovers
each year at both endpoints of its day interval, intervals chain, and the
era has 146097 days. -/
theorem yearTable : ∀ t < 400, yoeOfN (yearStartN t) = t ∧
    yoeOfN (yearStartN t + (yearLenN t - 1)) = t ∧
    yearStartN t + yearLenN t ≤ 146097 ∧
    (t < 399 → yearStartN (t + 1) = yearStartN t + yearLenN t) := by decide

theorem yearLenN_pos (t : Nat) : 365 ≤ yearLenN t := by
  unfold yearLenN
  split <;> omega

theorem yoeOfN_step {n : Nat} (h : n + 1 ≤ 146096) : yoeOfN n ≤ yoeOfN (n + 1) := by
  unfold yoeOfN
  omega

theorem yoeOfN_mono (b : Nat) : ∀ a, a ≤ b → b ≤ 146096 → yoeOfN a ≤ yoeOfN b := by
  induction b with
  | zero =>
    intro a ha _
    rw [Nat.le_zero.mp ha]
  | succ n ih =>
    intro a ha hb
    rcases Nat.eq_or_lt_of_le ha with h | h
    · rw [h]
    · exact Nat.le_trans (ih a (by omega) (by omega)) (yoeOfN_step hb)

/-- The year-of-era formula is constant on each year's day interval. -/
theorem yoeOfN_squeeze {t doe : Nat} (ht : t < 400)
    (h1 : yearStartN t ≤ doe) (h2 : doe < yearStartN t + yearLenN t) :
    yoeOfN doe = t := by
  obtain ⟨e1, e2, e3, _⟩ := yearTable t ht
  have hlen := yearLenN_pos t
  have lo := yoeOfN_mono doe (yearStartN t) h1 (by omega)
  have hi := yoeOfN_mono (yearStartN t + (yearLenN t - 1)) doe (by omega) (by omega)
  omega

/-- Every day-of-era lies in the interval of some year-of-era. -/
theorem yearLocate : ∀ doe, doe < 146097 →
    ∃ t, t < 400 ∧ yearStartN t ≤ doe ∧ doe < yearStartN t + yearLenN t := by
  intro doe
  induction doe with
  | zero =>
    intro _
    exact ⟨0, by decide, by decide, by decide⟩
  | succ n ih =>
    intro hn
    obtain ⟨t, ht, h1, h2⟩ := ih (by omega)
    by_cases hcase : n + 1 < yearStartN t + yearLenN t
    · exact ⟨t, ht, by omega, hcase⟩
    · by_cases ht399 : t = 399
      · exfalso
        subst ht399
        have hend : yearStartN 399 + yearLenN 399 = 146097 := by decide
        omega
      · have hchain := (yearTable t ht).2.2.2 (by omega)
        have hlen := yearLenN_pos (t + 1)
        exact ⟨t + 1, by omega, by omega, by omega⟩

/-- Characterization of the year-of-era formula on `[0, 146097)`. -/
theorem yoeOfN_char {doe : Nat} (h : doe < 146097) :
    yoeOfN doe < 400 ∧ yearStartN (yoeOfN doe) ≤ doe ∧
      doe < yearStartN (yoeOfN doe) + yearLenN (yoeOfN doe) := by
  obtain ⟨t, ht, h1, h2⟩ := yearLocate doe h
  have he := yoeOfN_squeeze ht h1 h2
  rw [he]
  exact ⟨ht, h1, h2⟩


/- ---------- equation lemmas for the era algorithms ---------- -/

theorem civilFromDays_eq (z era doe yoe doy mp dd mm yy : Int)
    (hera : era = (z + 719468) / 146097)
    (hdoe : doe = z + 719468 - era * 146097)
    (hyoe : yoe = (doe - doe / 1460 + doe / 36524 - doe / 146096) / 365)
    (hdoy : doy = doe - (365 * yoe + yoe / 4 - yoe / 100))
    (hmp : mp = (5 * doy + 2) / 153)
    (hdd : dd = doy - (153 * mp + 2) / 5 + 1)
    (hmm : mm = mp + (if mp < 10 then 3 else -9))
    (hyy : yy = if mm ≤ 2 then yoe + era * 400 + 1 else yoe + era * 400) :
    civilFromDays z = (yy, mm, dd) := by
  subst hyy hmm hdd hmp hdoy hyoe hdoe hera
  simp only [civilFromDays]

theorem daysFromCivil_eq (y m d y2 era yoe mp doy doe : Int)
    (hy2 : y2 = if m ≤ 2 then y - 1 else y)
    (hera : era = y2 / 400)
    (hyoe : yoe = y2 - era * 400)
    (hmp : mp = m + (if 2 < m then -3 else 9))
    (hdoy : doy = (153 * mp + 2) / 5 + d - 1)
    (hdoe : doe = yoe * 365 + yoe / 4 - yoe / 100 + doy) :
    daysFromCivil y m d = era * 146097 + doe - 719468 := by
  subst hdoe hdoy hmp hyoe hera hy2
  rfl

/- ---------- month table ---------- -/

/-- The Euclidean-year month lengths encoded by the `(153·mp + 2) / 5`
staircase agree with the `daysInMonth` table for every month except
February (`mp = 11`). -/
theorem dim_eq_monthLen (mp : Int) (h0 : 0 ≤ mp) (h1 : mp ≤ 10) (y : Int) :
    dim (mp + (if mp < 10 then 3 else -9)) y =
      (153 * (mp + 1) + 2) / 5 - (153 * mp + 2) / 5 := by
  interval_cases mp <;> norm_num [dim, daysInMonth] <;> decide

/-- February's entry of `dim`. -/
theorem dim_feb (y : Int) : dim 2 y = 28 + (if isLeap y = true then 1 else 0) := by
  norm_num [dim, daysInMonth]

theorem yearStartN_cast (t : Nat) :
    (yearStartN t : Int) = 365 * (t : Int) + (t : Int) / 4 - (t : Int) / 100 := by
  unfold yearStartN
  omega

theorem yearLenN_cases (t : Nat) :
    (yearLenN t = 365 ∧ leapYoe t = false) ∨ (yearLenN t = 366 ∧ leapYoe t = true) := by
  unfold yearLenN
  cases h : leapYoe t <;> simp [h]


/- ---------- the bijection, day level ---------- -/

/-- `civilFromDays` always produces a valid civil date, and `daysFromCivil`
maps it back to the original day number. -/
theorem civilFromDays_inverse (z : Int) :
    1 ≤ (civilFromDays z).2.1 ∧ (civilFromDays z).2.1 ≤ 12 ∧
    1 ≤ (civilFromDays z).2.2 ∧
    (civilFromDays z).2.2 ≤ dim (civilFromDays z).2.1 (civilFromDays z).1 ∧
    daysFromCivil (civilFromDays z).1 (civilFromDays z).2.1 (civilFromDays z).2.2 = z := by
  set era := (z + 719468) / 146097 with hera
  set doe := z + 719468 - era * 146097 with hdoe
  set yoe := (doe - doe / 1460 + doe / 36524 - doe / 146096) / 365 with hyoe
  set doy := doe - (365 * yoe + yoe / 4 - yoe / 100) with hdoy
  set mp := (5 * doy + 2) / 153 with hmp
  set dd := doy - (153 * mp + 2) / 5 + 1 with hdd
  set mm := mp + (if mp < 10 then 3 else -9) with hmm
  set yy := (if mm ≤ 2 then yoe + era * 400 + 1 else yoe + era * 400) with hyy
  have hC : civilFromDays z = (yy, mm, dd) :=
    civilFromDays_eq z era doe yoe doy mp dd mm yy hera hdoe hyoe hdoy hmp hdd hmm hyy
  rw [hC]
  dsimp only
  have hdoe0 : 0 ≤ doe := by omega
  have hdoe1 : doe < 146097 := by omega
  set t := yoeOfN doe.toNat with ht
  have hyoet : yoe = (t : Int) := by
    rw [hyoe, ht]
    unfold yoeOfN
    omega
  have htlt : doe.toNat < 146097 := by omega
  obtain ⟨ht400, hts, hte⟩ := yoeOfN_char htlt
  rw [← ht] at ht400 hts hte
  have hysI : (yearStartN t : Int) = 365 * yoe + yoe / 4 - yoe / 100 := by
    rw [hyoet]
    exact yearStartN_cast t
  have hlen := yearLenN_cases t
  have hlen' : yearLenN t = 365 ∨ yearLenN t = 366 := by
    rcases hlen with ⟨h, _⟩ | ⟨h, _⟩
    · exact Or.inl h
    · exact Or.inr h
  have hdoy0 : 0 ≤ doy := by omega
  have hdoyLen : doy < (yearLenN t : Int) := by omega
  have hdoy366 : doy < 366 := by omega
  have hmp0 : 0 ≤ mp ∧ mp ≤ 11 := by omega
  have hms : (153 * mp + 2) / 5 ≤ doy := by omega
  have hnext : mp = 11 ∨ doy < (153 * (mp + 1) + 2) / 5 := by omega
  have hdd1 : 1 ≤ dd := by omega
  have hmm2 : (mp < 10 ∧ mm = mp + 3) ∨ (10 ≤ mp ∧ mm = mp - 9) := by
    by_cases h : mp < 10
    · exact Or.inl ⟨h, by rw [hmm, if_pos h]⟩
    · exact Or.inr ⟨by omega, by rw [hmm, if_neg h]; ring⟩
  have hmmrange : 1 ≤ mm ∧ mm ≤ 12 := by omega
  have hyy2 : (mm ≤ 2 ∧ yy = yoe + era * 400 + 1) ∨ (2 < mm ∧ yy = yoe + era * 400) := by
    by_cases h : mm ≤ 2
    · exact Or.inl ⟨h, by rw [hyy, if_pos h]⟩
    · exact Or.inr ⟨by omega, by rw [hyy, if_neg h]⟩
  refine ⟨hmmrange.1, hmmrange.2, hdd1, ?_, ?_⟩
  · by_cases hfeb : mp = 11
    · have hmmv : mm = 2 := by omega
      have hyyv : yy = yoe + era * 400 + 1 := by
        rcases hyy2 with ⟨_, h⟩ | ⟨h2, _⟩
        · exact h
        · omega
      have hleapEq : isLeap yy = leapYoe t := by
        have hy400 : yy = 400 * era + ((t + 1 : Nat) : Int) := by push_cast; omega
        rw [hy400]
        exact isLeap_eq_leapYoe era t
      rw [hmmv, dim_feb, hleapEq]
      rcases hlen with ⟨hl365, hlf⟩ | ⟨hl366, hlt2⟩
      · rw [hlf]
        norm_num
        omega
      · rw [hlt2]
        norm_num
        omega
    · have hdimEq := dim_eq_monthLen mp (by omega) (by omega) yy
      rw [← hmm] at hdimEq
      rw [hdimEq]
      rcases hnext with h | h
      · omega
      · omega
  · have hyoe0 : 0 ≤ yoe ∧ yoe < 400 := by omega
    have hy2' : yoe + era * 400 = if mm ≤ 2 then yy - 1 else yy := by
      rcases hyy2 with ⟨h, hv⟩ | ⟨h, hv⟩
      · rw [if_pos h]
        omega
      · rw [if_neg (by omega)]
        omega
    have hera' : era = (yoe + era * 400) / 400 := by omega
    have hyoe' : yoe = yoe + era * 400 - era * 400 := by ring
    have hmp' : mp = mm + (if 2 < mm then -3 else 9) := by
      rcases hmm2 with ⟨h, hv⟩ | ⟨h, hv⟩
      · rw [if_pos (by omega)]
        omega
      · rw [if_neg (by omega)]
        omega
    have hdoy' : doy = (153 * mp + 2) / 5 + dd - 1 := by omega
    have hdoe' : doe = yoe * 365 + yoe / 4 - yoe / 100 + doy := by omega
    have hD := daysFromCivil_eq yy mm dd (yoe + era * 400) era yoe mp doy doe
      hy2' hera' hyoe' hmp' hdoy' hdoe'
    rw [hD]
    omega


set_option maxHeartbeats 2000000 in
/-- On valid civil dates, `civilFromDays` inverts `daysFromCivil`. -/
theorem daysFromCivil_inverse (y m d : Int) (hm1 : 1 ≤ m) (hm2 : m ≤ 12)
    (hd1 : 1 ≤ d) (hd2 : d ≤ dim m y) :
    civilFromDays (daysFromCivil y m d) = (y, m, d) := by
  set y2 := (if m ≤ 2 then y - 1 else y) with hy2
  set era := y2 / 400 with hera
  set yoe := y2 - era * 400 with hyoe
  set mp := m + (if 2 < m then -3 else 9) with hmp
  set doy := (153 * mp + 2) / 5 + d - 1 with hdoy
  set doe := yoe * 365 + yoe / 4 - yoe / 100 + doy with hdoe
  clear_value y2 era yoe mp doy doe
  have hD : daysFromCivil y m d = era * 146097 + doe - 719468 :=
    daysFromCivil_eq y m d y2 era yoe mp doy doe hy2 hera hyoe hmp hdoy hdoe
  rw [hD]
  have hyoe0 : 0 ≤ yoe ∧ yoe < 400 := by omega
  set t := yoe.toNat with ht
  clear_value t
  have hyoet : yoe = (t : Int) := by omega
  have ht400 : t < 400 := by omega
  have hysI : (yearStartN t : Int) = 365 * yoe + yoe / 4 - yoe / 100 := by
    rw [hyoet]
    exact yearStartN_cast t
  have hlen := yearLenN_cases t
  have hlen' : yearLenN t = 365 ∨ yearLenN t = 366 := by
    rcases hlen with ⟨h, _⟩ | ⟨h, _⟩
    · exact Or.inl h
    · exact Or.inr h
  obtain ⟨_, _, hbound, _⟩ := yearTable t ht400
  have hmm2 : (3 ≤ m ∧ mp = m - 3) ∨ (m ≤ 2 ∧ mp = m + 9) := by
    by_cases h : 2 < m
    · exact Or.inl ⟨h, by rw [hmp, if_pos h]; ring⟩
    · exact Or.inr ⟨by omega, by rw [hmp, if_neg h]⟩
  have hmprange : 0 ≤ mp ∧ mp ≤ 11 := by omega
  have hy22 : (m ≤ 2 ∧ y2 = y - 1) ∨ (2 < m ∧ y2 = y) := by
    by_cases h : m ≤ 2
    · exact Or.inl ⟨h, by rw [hy2, if_pos h]⟩
    · exact Or.inr ⟨by omega, by rw [hy2, if_neg h]⟩
  have hmEq : m = mp + (if mp < 10 then 3 else -9) := by
    rcases hmm2 with ⟨h, hv⟩ | ⟨h, hv⟩
    · rw [if_pos (by omega)]
      omega
    · rw [if_neg (by omega)]
      omega
  have hkey : doy < (153 * (mp + 1) + 2) / 5 ∧ doy < (yearLenN t : Int) := by
    by_cases hfeb : m = 2
    · have hmp11 : mp = 11 := by omega
      have hyv : y = 400 * era + ((t + 1 : Nat) : Int) := by push_cast; omega
      have hleapEq : isLeap y = leapYoe t := by
        rw [hyv]
        exact isLeap_eq_leapYoe era t
      have hdimv := dim_feb y
      rw [hleapEq] at hdimv
      rw [hfeb] at hd2
      rw [hdimv] at hd2
      rcases hlen with ⟨h1, h2⟩ | ⟨h1, h2⟩
      · rw [h2] at hd2
        norm_num at hd2
        omega
      · rw [h2] at hd2
        norm_num at hd2
        omega
    · have hmp10 : mp ≤ 10 := by omega
      have hdim := dim_eq_monthLen mp (by omega) hmp10 y
      rw [← hmEq] at hdim
      rw [hdim] at hd2
      omega
  have hdoy0 : 0 ≤ doy := by omega
  have hdoe0 : 0 ≤ doe := by omega
  have hdoe1 : doe < 146097 := by omega
  have hsq : yoeOfN doe.toNat = t := yoeOfN_squeeze ht400 (by omega) (by omega)
  set z := era * 146097 + doe - 719468 with hz
  clear_value z
  have hera2 : era = (z + 719468) / 146097 := by omega
  have hdoe2 : doe = z + 719468 - era * 146097 := by omega
  have hyoe2 : yoe = (doe - doe / 1460 + doe / 36524 - doe / 146096) / 365 := by
    have hbr : (doe - doe / 1460 + doe / 36524 - doe / 146096) / 365 =
        ((yoeOfN doe.toNat : Nat) : Int) := by
      unfold yoeOfN
      omega
    rw [hbr, hsq, hyoet]
  have hdoy2 : doy = doe - (365 * yoe + yoe / 4 - yoe / 100) := by omega
  have hmp2 : mp = (5 * doy + 2) / 153 := by omega
  have hdd2 : d = doy - (153 * mp + 2) / 5 + 1 := by omega
  have hyy3 : y = if m ≤ 2 then yoe + era * 400 + 1 else yoe + era * 400 := by
    rcases hy22 with ⟨h, hv⟩ | ⟨h, hv⟩
    · rw [if_pos h]
      omega
    · rw [if_neg (by omega)]
      omega
  exact civilFromDays_eq z era doe yoe doy mp d m y hera2 hdoe2 hyoe2 hdoy2 hmp2 hdd2
    hmEq hyy3


/- ---------- the bijection, instant level ---------- -/

theorem toPlain_eq (i : Instant) :
    toPlain i = ⟨(civilFromDays (i.epochMs / 86400000)).1,
      (civilFromDays (i.epochMs / 86400000)).2.1,
      (civilFromDays (i.epochMs / 86400000)).2.2,
      (i.epochMs / 3600000) % 24, (i.epochMs / 60000) % 60,
      (i.epochMs / 1000) % 60, i.epochMs % 1000⟩ := rfl

theorem makeDay_eq_daysFromCivil (y m d : Int) (h1 : 1 ≤ m) (h2 : m ≤ 12) :
    makeDay y (m - 1) d = daysFromCivil y m d := by
  unfold makeDay
  have e1 : (m - 1) / 12 = 0 := by omega
  have e2 : (m - 1) % 12 = m - 1 := by omega
  rw [e1, e2]
  congr 1 <;> omega

/-- `toPlain` always yields a valid civil date-time, for every integer
instant. -/
theorem toPlain_valid (i : Instant) : validDT (toPlain i) := by
  obtain ⟨h1, h2, h3, h4, _⟩ := civilFromDays_inverse (i.epochMs / 86400000)
  rw [toPlain_eq]
  refine ⟨h1, h2, h3, h4, ?_⟩
  unfold validTime
  dsimp only
  omega

/-- Round trip from a valid civil date-time whose year avoids the host's
two-digit-year window. -/
theorem toPlain_fromPlain_fields (py pm pd ph pmi ps pms : Int)
    (hm1 : 1 ≤ pm) (hm2 : pm ≤ 12) (hd1 : 1 ≤ pd) (hd2 : pd ≤ dim pm py)
    (hh : 0 ≤ ph ∧ ph ≤ 23) (hmi : 0 ≤ pmi ∧ pmi ≤ 59) (hs : 0 ≤ ps ∧ ps ≤ 59)
    (hms : 0 ≤ pms ∧ pms ≤ 999) (hy : ¬(0 ≤ py ∧ py ≤ 99)) :
    toPlain (fromPlain ⟨py, pm, pd, ph, pmi, ps, pms⟩) = ⟨py, pm, pd, ph, pmi, ps, pms⟩ := by
  have hyA : yAdj py = py := by
    unfold yAdj
    rw [if_neg hy]
  have hciv := daysFromCivil_inverse py pm pd hm1 hm2 hd1 hd2
  unfold fromPlain
  dsimp only
  rw [hyA, makeDay_eq_daysFromCivil py pm pd hm1 hm2]
  rw [toPlain_eq]
  dsimp only
  set D := daysFromCivil py pm pd with hDdef
  clear_value D
  have hday : (D * 86400000 + ph * 3600000 + pmi * 60000 + ps * 1000 + pms) / 86400000 = D := by
    omega
  rw [hday, hciv]
  dsimp only
  simp only [PlainDateTime.mk.injEq]
  refine ⟨trivial, trivial, trivial, ?_, ?_, ?_, ?_⟩ <;> omega

/-- Round trip from an instant whose civil year avoids the host's
two-digit-year window. -/
theorem fromPlain_toPlain (i : Instant)
    (hy : ¬(0 ≤ (toPlain i).y ∧ (toPlain i).y ≤ 99)) :
    fromPlain (toPlain i) = i := by
  obtain ⟨t⟩ := i
  rw [toPlain_eq] at hy ⊢
  dsimp only at hy ⊢
  obtain ⟨h1, h2, h3, h4, h5⟩ := civilFromDays_inverse (t / 86400000)
  unfold fromPlain
  dsimp only
  have hyA : yAdj (civilFromDays (t / 86400000)).1 = (civilFromDays (t / 86400000)).1 := by
    unfold yAdj
    rw [if_neg hy]
  rw [hyA, makeDay_eq_daysFromCivil _ _ _ h1 h2, h5]
  simp only [Instant.mk.injEq]
  omega


/- ---------- recurrence helpers ---------- -/

/-- Closed form of the `every(dur)` cursor. -/
theorem everyCur_closed (dur : Duration) (origin : ZDT PlainDateTime) :
    ∀ k : Nat, everyCur dur origin k = origin.instant.epochMs + k * dur.ms := by
  intro k
  induction k with
  | zero => simp [everyCur]
  | succ j ih =>
    show everyCur dur origin (j + 1) = _
    rw [everyCur, ih]
    push_cast
    ring

/- ---------- claim theorems (easy group) ---------- -/

/-- C9: the ZonedValue payload map is a lawful functor — identity and
composition laws hold, and `zfmap` never touches the instant or the zone
record. -/
theorem C9_functor_laws :
    (∀ (A : Type) (v : ZDT A), zfmap id v = v) ∧
    (∀ (A B C : Type) (f : A → B) (g : B → C) (v : ZDT A),
      zfmap (g ∘ f) v = zfmap g (zfmap f v)) ∧
    (∀ (A B : Type) (f : A → B) (v : ZDT A),
      (zfmap f v).instant = v.instant ∧ (zfmap f v).zone = v.zone) := by
  refine ⟨?_, ?_, ?_⟩
  · intro A v
    cases v
    rfl
  · intro A B C f g v
    rfl
  · intro A B f v
    exact ⟨rfl, rfl⟩

/-- C10: every civil-field getter of a `ReamDate` reads the UTC
decomposition `toPlain(instant)` and ignores the stored zone: two
`ReamDate`s with the same instant and different zones agree on all nine
getters, and a value retargeted with `tz(name)` still reports the UTC
wall-clock fields. -/
theorem C10_getters_zone_independent :
    (∀ (i : Instant) (z1 z2 : TimeZone),
      (makeReam i z1).year = (makeReam i z2).year ∧
      (makeReam i z1).month = (makeReam i z2).month ∧
      (makeReam i z1).date = (makeReam i z2).date ∧
      (makeReam i z1).day = (makeReam i z2).day ∧
      (makeReam i z1).weekday = (makeReam i z2).weekday ∧
      (makeReam i z1).hour = (makeReam i z2).hour ∧
      (makeReam i z1).minute = (makeReam i z2).minute ∧
      (makeReam i z1).second = (makeReam i z2).second ∧
      (makeReam i z1).millisecond = (makeReam i z2).millisecond) ∧
    (∀ (h : HostClock) (name : String) (r : ReamDate),
      (r.tz h name).year = (toPlain r.instant).y ∧
      (r.tz h name).month = (toPlain r.instant).m ∧
      (r.tz h name).date = (toPlain r.instant).d ∧
      (r.tz h name).hour = (toPlain r.instant).h ∧
      (r.tz h name).minute = (toPlain r.instant).min ∧
      (r.tz h name).second = (toPlain r.instant).s ∧
      (r.tz h name).millisecond = (toPlain r.instant).ms ∧
      (r.tz h name).day =
        dayOfWeek ⟨(toPlain r.instant).y, (toPlain r.instant).m, (toPlain r.instant).d⟩ ∧
      (r.tz h name).weekday =
        dayOfWeek ⟨(toPlain r.instant).y, (toPlain r.instant).m, (toPlain r.instant).d⟩) := by
  constructor
  · intro i z1 z2
    exact ⟨rfl, rfl, rfl, rfl, rfl, rfl, rfl, rfl, rfl⟩
  · intro h name r
    exact ⟨rfl, rfl, rfl, rfl, rfl, rfl, rfl, rfl, rfl⟩

/-- C2 counterexample: in the hardcoded-table variant (`src/lib/ream.ts`),
offset resolution for the unknown name "Not/AZone" throws (modelled as
`Except.error`) instead of returning the UTC fallback record. -/
theorem C2_counterexample :
    Db.tzOffset "Not/AZone" ⟨0⟩ = Except.error "Unknown zone" := rfl

/-- C2 (amended): in the Intl-backed resolver, a zone identifier the host
does not recognize never raises — `getTimezoneInfo` returns the UTC
fallback record `{name: "UTC", offsetMinutes: 0, dst: false}` for every
instant.  (The table variant's `tzOffset` throws instead; see the
counterexample.) -/
theorem C2_unknown_zone_fallback (h : HostClock) (z : String) (i : Instant)
    (hz : h.recognized z = false) :
    getTimezoneInfo h z i = ⟨"UTC", 0, false, some "UTC"⟩ := by
  unfold getTimezoneInfo
  simp [hz]

/-- Witness for C2: the fallback record at a concrete host, name and
instant. -/
theorem C2_unknown_zone_fallback_witness :
    getTimezoneInfo testHost "Not/AZone" ⟨0⟩ = ⟨"UTC", 0, false, some "UTC"⟩ :=
  C2_unknown_zone_fallback testHost "Not/AZone" ⟨0⟩ (by decide)

/-- C3: `toZone` does *not* preserve the instant — converting a UTC-zoned
value at epoch 0 to a fixed −300-minute zone shifts the stored instant by
−18,000,000 ms, while `ReamDate.tz` on the same data keeps the instant.
This exhibits the delta-based retargeting the spec's design notes flag as a
defect. -/
theorem C3_toZone_shifts_instant :
    (toZone testHost "America/New_York"
        (zdt ⟨0⟩ UTC (⟨1970, 1, 1, 0, 0, 0, 0⟩ : PlainDateTime))).instant ≠
      (zdt ⟨0⟩ UTC (⟨1970, 1, 1, 0, 0, 0, 0⟩ : PlainDateTime)).instant ∧
    (toZone testHost "America/New_York"
        (zdt ⟨0⟩ UTC (⟨1970, 1, 1, 0, 0, 0, 0⟩ : PlainDateTime))).instant.epochMs = -18000000 ∧
    (ReamDate.tz (makeReam (⟨0⟩ : Instant) UTC) testHost "America/New_York").instant =
      (⟨0⟩ : Instant) := by
  refine ⟨by decide, by decide, rfl⟩

/-- C6: for every host, zone identifier and instant, the Intl-backed DST
flag equals the comparison of the resolved offset against the minimum of
the two reference offsets, resolved at the January-1st-noon and
July-1st-noon instants of the same local calendar year. -/
theorem C6_dst_classification (h : HostClock) (z : String) (i : Instant) :
    (getTimezoneInfo h z i).dst = true ↔
      min (tzOffset h z ⟨jsNewDate h ⟨(h.localCivil i.epochMs).y, 1, 1, 12, 0, 0, 0⟩⟩)
          (tzOffset h z ⟨jsNewDate h ⟨(h.localCivil i.epochMs).y, 7, 1, 12, 0, 0, 0⟩⟩) <
        tzOffset h z i := by
  by_cases hr : h.recognized z
  · simp [tzOffset, getTimezoneInfo, hr, decide_eq_true_iff]
  · simp [tzOffset, getTimezoneInfo, hr]

/-- C7: the k-th element of the fixed-duration recurrence `every(dur)` has
instant `origin + k·dur.ms` with the origin's zone and payload; hence
consecutive elements differ by exactly `dur.ms` (86,400,000 for one-day
steps) for every index, and the sequence is a pure function of
`(dur, origin, k)`, so re-invoking the rule on the same origin reproduces
the identical sequence. -/
theorem C7_every_closed_form (dur : Duration) (origin : ZDT PlainDateTime) (k : Nat) :
    (everyElem dur origin k).instant.epochMs = origin.instant.epochMs + k * dur.ms ∧
    (everyElem dur origin k).zone = origin.zone ∧
    (everyElem dur origin k).payload = origin.payload ∧
    (everyElem dur origin (k + 1)).instant.epochMs -
      (everyElem dur origin k).instant.epochMs = dur.ms ∧
    (everyElem (durationDays 1) origin (k + 1)).instant.epochMs -
      (everyElem (durationDays 1) origin k).instant.epochMs = 86400000 := by
  have h := everyCur_closed dur origin
  have h1 := everyCur_closed (durationDays 1) origin
  unfold everyElem
  dsimp only
  refine ⟨h k, rfl, rfl, ?_, ?_⟩
  · rw [h (k + 1), h k]
    push_cast
    ring
  · rw [h1 (k + 1), h1 k]
    unfold durationDays
    dsimp only
    push_cast
    ring


/- ---------- dim helpers ---------- -/

theorem dim_bounds (m y : Int) (h1 : 1 ≤ m) (h2 : m ≤ 12) :
    28 ≤ dim m y ∧ dim m y ≤ 31 := by
  unfold dim
  interval_cases m <;> simp [daysInMonth] <;> split <;> omega

theorem dim_year_irrel (m y y' : Int) (hm : m ≠ 2) : dim m y = dim m y' := by
  unfold dim
  rw [if_neg (fun hc => hm hc.1), if_neg (fun hc => hm hc.1)]

/- ---------- claim C4 ---------- -/

/-- C4: `addMonths` agrees with the spec's linearize/floored-decompose/clamp
description on every integer count and date, and satisfies the three
concrete examples (clamping into common and leap February, rollover across
a year boundary). -/
theorem C4_addMonths_refines_spec :
    (∀ (n : Int) (d : PlainDate), addMonths n d = addMonthsSpec n d) ∧
    addMonths 1 ⟨2023, 1, 31⟩ = ⟨2023, 2, 28⟩ ∧
    addMonths 1 ⟨2024, 1, 31⟩ = ⟨2024, 2, 29⟩ ∧
    addMonths 3 ⟨2023, 11, 15⟩ = ⟨2024, 2, 15⟩ := by
  refine ⟨?_, by decide, by decide, by decide⟩
  intro n d
  unfold addMonths addMonthsSpec
  dsimp only
  rw [mod_twelve_eq]
  have h1 : (d.m - 1 + n) % 12 + 1 = (d.y * 12 + (d.m - 1) + n) % 12 + 1 := by omega
  have h2 : d.y + (d.m - 1 + n) / 12 = (d.y * 12 + (d.m - 1) + n) / 12 := by omega
  rw [h1, h2]

/- ---------- claim C5 ---------- -/

theorem addMonths_valid (n : Int) (d : PlainDate) (hv : validDate d) :
    validDate (addMonths n d) := by
  obtain ⟨hm1, hm2, hd1, hd2⟩ := hv
  unfold addMonths validDate
  dsimp only
  rw [mod_twelve_eq]
  have hm : 1 ≤ (d.m - 1 + n) % 12 + 1 ∧ (d.m - 1 + n) % 12 + 1 ≤ 12 := by omega
  have hb := dim_bounds ((d.m - 1 + n) % 12 + 1) (d.y + (d.m - 1 + n) / 12) hm.1 hm.2
  refine ⟨hm.1, hm.2, ?_, ?_⟩ <;> omega

theorem toPlain_date_valid (i : Instant) :
    validDate ⟨(toPlain i).y, (toPlain i).m, (toPlain i).d⟩ := by
  obtain ⟨h1, h2, h3, h4, _⟩ := toPlain_valid i
  exact ⟨h1, h2, h3, h4⟩

theorem addDays_valid (n : Int) (d : PlainDate) : validDate (addDays n d) := by
  unfold addDays
  exact toPlain_date_valid _

theorem addYears_valid_amended (n : Int) (d : PlainDate) (hv : validDate d)
    (h : isLeap (d.y + n) = true ∨ ¬(d.m = 2 ∧ d.d = 29)) :
    validDate (addYears n d) := by
  obtain ⟨hm1, hm2, hd1, hd2⟩ := hv
  refine ⟨hm1, hm2, hd1, ?_⟩
  show d.d ≤ dim d.m (d.y + n)
  by_cases hm : d.m = 2
  · rw [hm] at hd2 ⊢
    rw [dim_feb] at hd2 ⊢
    rcases h with hL | hno
    · rw [if_pos hL]
      split at hd2 <;> omega
    · push_neg at hno
      have hd29 : d.d ≠ 29 := hno hm
      split at hd2 <;> split <;> omega
  · rw [dim_year_irrel d.m (d.y + n) d.y hm]
    exact hd2

/-- C5 counterexample: `addYears` applied to Feb-29 of a leap year with a
non-leap target year produces the invalid date 2025-02-29. -/
theorem C5_counterexample :
    validDate ⟨2024, 2, 29⟩ ∧ ¬ validDate (addYears 1 ⟨2024, 2, 29⟩) :=
  ⟨by decide, by decide⟩

/-- C5 (amended): every CalendarStepper operation is total; all of them
except `addYears` always return valid civil values (for `addMonths` given
a valid input date), and `addYears` returns a valid date except in the one
case the source does not clamp — a Feb-29 input whose target year is not a
leap year. -/
theorem C5_stepper_validity_amended :
    (∀ (n : Int) (d : PlainDate), validDate d → validDate (addMonths n d)) ∧
    (∀ (n : Int) (d : PlainDate), validDate (addDays n d)) ∧
    (∀ (n : Int) (dt : PlainDateTime), validDT (addHours n dt)) ∧
    (∀ (n : Int) (dt : PlainDateTime), validDT (addMinutes n dt)) ∧
    (∀ (n : Int) (dt : PlainDateTime), validDT (addSeconds n dt)) ∧
    (∀ (n : Int) (dt : PlainDateTime), validDT (addMilliseconds n dt)) ∧
    (∀ (d : PlainDate) (startOn : Int), validDate (startOfWeek d startOn)) ∧
    (∀ (n : Int) (d : PlainDate), validDate d →
      (isLeap (d.y + n) = true ∨ ¬(d.m = 2 ∧ d.d = 29)) →
      validDate (addYears n d)) := by
  refine ⟨addMonths_valid, addDays_valid, ?_, ?_, ?_, ?_, ?_, addYears_valid_amended⟩
  · intro n dt
    unfold addHours
    exact toPlain_valid _
  · intro n dt
    unfold addMinutes
    exact toPlain_valid _
  · intro n dt
    unfold addSeconds
    exact toPlain_valid _
  · intro n dt
    unfold addMilliseconds
    exact toPlain_valid _
  · intro d startOn
    unfold startOfWeek
    exact addDays_valid _ _

/-- Witness for C5: the amended theorem applied at concrete inputs. -/
theorem C5_stepper_validity_amended_witness :
    validDate (addMonths 13 ⟨2024, 1, 31⟩) ∧ validDate (addYears 4 ⟨2024, 2, 29⟩) :=
  ⟨C5_stepper_validity_amended.1 13 ⟨2024, 1, 31⟩ (by decide),
   C5_stepper_validity_amended.2.2.2.2.2.2.2 4 ⟨2024, 2, 29⟩ (by decide) (by decide)⟩


/- ---------- claim C8 ---------- -/

/-- The `everyMonth` payload recurrence is iteration of the single step. -/
theorem everyMonthPayload_iterate (n : Int) (origin : ZDT PlainDateTime) :
    ∀ k : Nat, everyMonthPayload n origin k = (monthStep n)^[k] origin.payload := by
  intro k
  induction k with
  | zero => rfl
  | succ j ih =>
    rw [Function.iterate_succ_apply', ← ih]
    rfl

/-- Closed form of the monthly recurrence from the C8 origin payload:
month cycles 1→12→1, year increments at the wrap, day and time fields are
preserved. -/
theorem everyMonthPayload_closed (origin : ZDT PlainDateTime)
    (h0 : origin.payload = ⟨2023, 1, 15, 12, 0, 0, 0⟩) :
    ∀ k : Nat, everyMonthPayload 1 origin k =
      ⟨2023 + ((k / 12 : Nat) : Int), ((k % 12 : Nat) : Int) + 1, 15, 12, 0, 0, 0⟩ := by
  intro k
  induction k with
  | zero =>
    rw [show everyMonthPayload 1 origin 0 = origin.payload from rfl, h0]
    norm_num
  | succ j ih =>
    have hstep : everyMonthPayload 1 origin (j + 1) =
        monthStep 1 (everyMonthPayload 1 origin j) := rfl
    rw [hstep, ih]
    unfold monthStep addMonths
    dsimp only
    rw [mod_twelve_eq]
    have hmr : 1 ≤ (((j % 12 : Nat) : Int) + 1 - 1 + 1) % 12 + 1 ∧
        (((j % 12 : Nat) : Int) + 1 - 1 + 1) % 12 + 1 ≤ 12 := by omega
    have hb := dim_bounds ((((j % 12 : Nat) : Int) + 1 - 1 + 1) % 12 + 1)
      (2023 + ((j / 12 : Nat) : Int) + (((j % 12 : Nat) : Int) + 1 - 1 + 1) / 12) hmr.1 hmr.2
    simp only [PlainDateTime.mk.injEq]
    refine ⟨by omega, by omega, by omega, trivial, trivial, trivial, trivial⟩

/-- C8: for any origin whose payload is the civil value
`{2023-01-15 12:00:00.000}`, the k-th element of the monthly recurrence
keeps day 15 and hour 12 (and the other time fields) for every k — in
particular for the first 24 — with month `(k mod 12) + 1` and year
`2023 + k / 12`, and the k-th payload is exactly the k-fold iterate of the
`addMonths`-with-time-reattached step on the origin payload. -/
theorem C8_everyMonth_closed_form (origin : ZDT PlainDateTime)
    (h0 : origin.payload = ⟨2023, 1, 15, 12, 0, 0, 0⟩) (k : Nat) :
    (everyMonthElem 1 origin k).payload =
      ⟨2023 + ((k / 12 : Nat) : Int), ((k % 12 : Nat) : Int) + 1, 15, 12, 0, 0, 0⟩ ∧
    (everyMonthElem 1 origin k).payload = (monthStep 1)^[k] origin.payload := by
  constructor
  · exact everyMonthPayload_closed origin h0 k
  · exact everyMonthPayload_iterate 1 origin k

/-- Witness for C8: element 13 of the monthly recurrence from a concrete
origin is `{2024-02-15 12:00}`. -/
theorem C8_everyMonth_closed_form_witness :
    (everyMonthElem 1 (zdt ⟨0⟩ UTC (⟨2023, 1, 15, 12, 0, 0, 0⟩ : PlainDateTime)) 13).payload =
      ⟨2024, 2, 15, 12, 0, 0, 0⟩ := by
  have h := (C8_everyMonth_closed_form
    (zdt ⟨0⟩ UTC (⟨2023, 1, 15, 12, 0, 0, 0⟩ : PlainDateTime)) rfl 13).1
  norm_num at h
  exact h


/- ---------- claim C1 ---------- -/

/-- C1 counterexample: the valid civil value with year 50 does not round
trip — the host's two-digit-year rule in `Date.UTC` maps year 50 to 1950,
so `toPlain(fromPlain({50,1,1,0,0,0,0})) = {1950,1,1,0,0,0,0}`. -/
theorem C1_counterexample :
    validDT ⟨50, 1, 1, 0, 0, 0, 0⟩ ∧
    toPlain (fromPlain ⟨50, 1, 1, 0, 0, 0, 0⟩) ≠ ⟨50, 1, 1, 0, 0, 0, 0⟩ ∧
    toPlain (fromPlain ⟨50, 1, 1, 0, 0, 0, 0⟩) = ⟨1950, 1, 1, 0, 0, 0, 0⟩ :=
  ⟨by decide, by decide, by decide⟩

/-- C1 (amended): outside the host's two-digit-year window `0..99`, the
epoch/civil conversions are mutually inverse — `toPlain (fromPlain dt) = dt`
for every valid `CivilDateTime` with year not in `0..99`, and
`fromPlain (toPlain i) = i` for every instant whose UTC civil year is not
in `0..99`; both directions are total functions on all integers. -/
theorem C1_bijection_amended :
    (∀ p : PlainDateTime, validDT p → ¬(0 ≤ p.y ∧ p.y ≤ 99) →
      toPlain (fromPlain p) = p) ∧
    (∀ i : Instant, ¬(0 ≤ (toPlain i).y ∧ (toPlain i).y ≤ 99) →
      fromPlain (toPlain i) = i) := by
  constructor
  · intro p hv hy
    obtain ⟨py, pm, pd, ph, pmi, ps, pms⟩ := p
    obtain ⟨hm1, hm2, hd1, hd2, hh0, hh1, hmi0, hmi1, hs0, hs1, hms0, hms1⟩ := hv
    exact toPlain_fromPlain_fields py pm pd ph pmi ps pms hm1 hm2 hd1 hd2
      ⟨hh0, hh1⟩ ⟨hmi0, hmi1⟩ ⟨hs0, hs1⟩ ⟨hms0, hms1⟩ hy
  · exact fromPlain_toPlain

/-- Witness for C1: both directions of the amended bijection at concrete
inputs (2023-07-15T14:30:45.123Z). -/
theorem C1_bijection_amended_witness :
    toPlain (fromPlain ⟨2023, 7, 15, 14, 30, 45, 123⟩) = ⟨2023, 7, 15, 14, 30, 45, 123⟩ ∧
    fromPlain (toPlain ⟨1689431445123⟩) = ⟨1689431445123⟩ :=
  ⟨C1_bijection_amended.1 ⟨2023, 7, 15, 14, 30, 45, 123⟩ (by decide) (by decide),
   C1_bijection_amended.2 ⟨1689431445123⟩ (by decide)⟩

end Ream
